import Mathlib

/-!
Verification development for the SQL front-end of `mkdb` (tokenizer and
recursive-descent / precedence-climbing parser). The parser is embedded
from `src/sql/parser.rs`. The token model, the AST/statement model and the
tokenizer live in modules that are not part of the sources at hand; they
are modelled from the specification (each such definition is marked
`Modelled from the spec:` in its doc comment). Errors are `Except` values,
machine integers are `Nat` (no arithmetic in the parser overflows: the
only numeric values are small precedence constants).
-/

namespace MkDb

/-- Modelled from the spec: `Location` is an opaque, comparable position
marker, deterministic and monotonically increasing while scanning; we use
the byte offset into the source. `Location::default()` is offset 0. -/
abbrev Location := Nat

/-- Modelled from the spec: a lexical error carries a message and the
location it was discovered at. (`tokenizer::TokenizerError`.) -/
structure TokenizerError where
  message : String
  location : Location
deriving DecidableEq, Repr

/-- Modelled from the spec: the fixed, case-insensitive reserved-word set,
plus the `None` sentinel used by the parser for "no keyword matched".
(`token::Keyword`.) -/
inductive Keyword where
  | select | fromKw | whereKw | create | database | table | update | set
  | insert | into | values | delete | drop | and | or | primary | key
  | unique | int | varchar | none
deriving DecidableEq, Repr

/-- Modelled from the spec: the closed set of lexical categories.
(`token::Token`.) -/
inductive Token where
  | keyword (k : Keyword)
  | identifier (name : String)
  | number (digits : String)
  | string (content : String)
  | eq | neq | lt | ltEq | gt | gtEq
  | plus | minus | mul | div
  | leftParen | rightParen | comma | semiColon
  | whitespace (content : String)
  | eof
deriving DecidableEq, Repr

/-- Modelled from the spec: a token paired with the location of its first
character. (`tokenizer::TokenWithLocation`.) -/
structure TokenWithLocation where
  token : Token
  location : Location
deriving DecidableEq, Repr

/-- Modelled from the spec: rendering of a keyword for error messages
(the `Display` impl lives in the missing `token` module); keywords render
as their upper-case SQL spelling. -/
def Keyword.display : Keyword → String
  | .select => "SELECT" | .fromKw => "FROM" | .whereKw => "WHERE"
  | .create => "CREATE" | .database => "DATABASE" | .table => "TABLE"
  | .update => "UPDATE" | .set => "SET" | .insert => "INSERT"
  | .into => "INTO" | .values => "VALUES" | .delete => "DELETE"
  | .drop => "DROP" | .and => "AND" | .or => "OR" | .primary => "PRIMARY"
  | .key => "KEY" | .unique => "UNIQUE" | .int => "INT"
  | .varchar => "VARCHAR" | .none => "NONE"

/-- Modelled from the spec: rendering of a keyword the way Rust `Debug`
would print the enum variant (used by `expect_one_of` error messages). -/
def Keyword.debugName : Keyword → String
  | .select => "Select" | .fromKw => "From" | .whereKw => "Where"
  | .create => "Create" | .database => "Database" | .table => "Table"
  | .update => "Update" | .set => "Set" | .insert => "Insert"
  | .into => "Into" | .values => "Values" | .delete => "Delete"
  | .drop => "Drop" | .and => "And" | .or => "Or" | .primary => "Primary"
  | .key => "Key" | .unique => "Unique" | .int => "Int"
  | .varchar => "Varchar" | .none => "None"

/-- Modelled from the spec: rendering of a token for error messages (the
`Display` impl lives in the missing `token` module). -/
def Token.display : Token → String
  | .keyword k => k.display
  | .identifier name => name
  | .number digits => digits
  | .string content => content
  | .eq => "=" | .neq => "!=" | .lt => "<" | .ltEq => "<="
  | .gt => ">" | .gtEq => ">=" | .plus => "+" | .minus => "-"
  | .mul => "*" | .div => "/" | .leftParen => "(" | .rightParen => ")"
  | .comma => "," | .semiColon => ";"
  | .whitespace content => content
  | .eof => "EOF"

/-- The binary operators of the expression sublanguage
(`statement::BinaryOperator`; the shape is fixed by the uses in
`parser.rs`). -/
inductive BinaryOperator where
  | plus | minus | div | mul
  | eq | neq | gt | gtEq | lt | ltEq
  | and | or
deriving DecidableEq, Repr

/-- Literal values (`statement::Value`); numbers stay unparsed text. -/
inductive Value where
  | number (digits : String)
  | string (content : String)
deriving DecidableEq, Repr

/-- Expressions (`statement::Expression`), as constructed by `parser.rs`. -/
inductive Expression where
  | identifier (name : String)
  | wildcard
  | value (v : Value)
  | binaryOperation (left : Expression) (operator : BinaryOperator)
      (right : Expression)
deriving DecidableEq, Repr

/-- Column data types (`statement::DataType`). The `VARCHAR` length is an
unsigned integer; we use `Nat`. -/
inductive DataType where
  | int
  | varchar (length : Nat)
deriving DecidableEq, Repr

/-- Column constraints (`statement::Constraint`). -/
inductive Constraint where
  | primaryKey
  | unique
deriving DecidableEq, Repr

/-- A column definition (`statement::Column`). -/
structure Column where
  name : String
  dataType : DataType
  constraint : Option Constraint
deriving DecidableEq, Repr

/-- `CREATE` payloads (`statement::Create`). -/
inductive Create where
  | database (name : String)
  | table (name : String) (columns : List Column)
deriving DecidableEq, Repr

/-- `DROP` payloads (`statement::Drop`). -/
inductive Drop where
  | database (name : String)
  | table (name : String)
deriving DecidableEq, Repr

/-- Statements (`statement::Statement`), shapes as constructed by
`parser.rs`: `select columns from where`, `create`, `update table columns
where`, `insert into columns values`, `delete from where`, `drop`. -/
inductive Statement where
  | select (columns : List Expression) (fromTable : String)
      (whereCond : Option Expression)
  | create (c : Create)
  | update (table : String) (columns : List Expression)
      (whereCond : Option Expression)
  | insert (into : String) (columns : List String)
      (values : List Expression)
  | delete (fromTable : String) (whereCond : Option Expression)
  | drop (d : Drop)
deriving DecidableEq, Repr

/-- The parser error type (`ParserError` in `parser.rs`): message plus
location. -/
structure ParserError where
  message : String
  location : Location
deriving DecidableEq, Repr

/-- `impl From<TokenizerError> for ParserError`: the lexical error message
is prefixed with "syntax error: " and the location is kept. -/
def ParserError.fromTokenizerError (err : TokenizerError) : ParserError :=
  { message := "syntax error: " ++ err.message, location := err.location }

/-- An ASCII single quote, used inside error messages. -/
def singleQuote : String := String.singleton (Char.ofNat 39)

/-- Wraps a string in single quotes for error messages. -/
def quoted (str : String) : String := singleQuote ++ str ++ singleQuote

/-! ## Tokenizer, modelled from the spec (the `tokenizer` module is not
among the sources). It scans the input left to right, producing maximal
lexemes; whitespace is kept as tokens; keywords are matched
case-insensitively; two-character operators are preferred greedily; an
`eof` sentinel ends the sequence; scanning stops at the first lexical
error. -/

/-- Modelled from the spec: first character of an identifier lexeme. -/
def isIdentStart (c : Char) : Bool := c.isAlpha || c = '_'

/-- Modelled from the spec: subsequent characters of an identifier. -/
def isIdentChar (c : Char) : Bool := c.isAlphanum || c = '_'

/-- Splits a character list into its maximal prefix satisfying `p` and
the remainder. -/
def spanChars (p : Char → Bool) : List Char → List Char × List Char
  | [] => ([], [])
  | c :: cs =>
    if p c then
      let (run, rest) := spanChars p cs
      (c :: run, rest)
    else ([], c :: cs)

/-- Modelled from the spec: the case-insensitive reserved-word table.
The lexeme is upper-cased character by character before the lookup. -/
def keywordOfLexeme (lexeme : String) : Option Keyword :=
  match String.mk (lexeme.data.map Char.toUpper) with
  | "SELECT" => some .select
  | "FROM" => some .fromKw
  | "WHERE" => some .whereKw
  | "CREATE" => some .create
  | "DATABASE" => some .database
  | "TABLE" => some .table
  | "UPDATE" => some .update
  | "SET" => some .set
  | "INSERT" => some .insert
  | "INTO" => some .into
  | "VALUES" => some .values
  | "DELETE" => some .delete
  | "DROP" => some .drop
  | "AND" => some .and
  | "OR" => some .or
  | "PRIMARY" => some .primary
  | "KEY" => some .key
  | "UNIQUE" => some .unique
  | "INT" => some .int
  | "VARCHAR" => some .varchar
  | _ => Option.none

/-- Modelled from the spec: single-character operator and punctuation
tokens. -/
def singleCharToken : Char → Option Token
  | '=' => some .eq
  | '+' => some .plus
  | '-' => some .minus
  | '*' => some .mul
  | '/' => some .div
  | '(' => some .leftParen
  | ')' => some .rightParen
  | ',' => some .comma
  | ';' => some .semiColon
  | _ => Option.none

/-- Modelled from the spec: the scanning loop. `fuel` bounds the number of
lexemes (every step consumes at least one character, so
`input.length + 1` is always sufficient); `pos` is the character offset
of the next unread character. -/
def tokenizeList : Nat → Location → List Char →
    List (Except TokenizerError TokenWithLocation)
  | 0, _, _ => []
  | _ + 1, pos, [] => [.ok ⟨.eof, pos⟩]
  | fuel + 1, pos, c :: cs =>
    if c.isWhitespace then
      let (run, rest) := spanChars Char.isWhitespace (c :: cs)
      .ok ⟨.whitespace (String.mk run), pos⟩ ::
        tokenizeList fuel (pos + run.length) rest
    else if c.isDigit then
      let (run, rest) := spanChars Char.isDigit (c :: cs)
      .ok ⟨.number (String.mk run), pos⟩ ::
        tokenizeList fuel (pos + run.length) rest
    else if isIdentStart c then
      let (run, rest) := spanChars isIdentChar (c :: cs)
      let lexeme := String.mk run
      let tok := match keywordOfLexeme lexeme with
        | some k => Token.keyword k
        | Option.none => Token.identifier lexeme
      .ok ⟨tok, pos⟩ :: tokenizeList fuel (pos + run.length) rest
    else if c = '"' then
      let (content, rest) := spanChars (fun d => d ≠ '"') cs
      match rest with
      | [] => [.error ⟨"unterminated string literal", pos⟩]
      | _ :: rest2 =>
        .ok ⟨.string (String.mk content), pos⟩ ::
          tokenizeList fuel (pos + content.length + 2) rest2
    else if c = '<' then
      match cs with
      | '=' :: rest => .ok ⟨.ltEq, pos⟩ :: tokenizeList fuel (pos + 2) rest
      | _ => .ok ⟨.lt, pos⟩ :: tokenizeList fuel (pos + 1) cs
    else if c = '>' then
      match cs with
      | '=' :: rest => .ok ⟨.gtEq, pos⟩ :: tokenizeList fuel (pos + 2) rest
      | _ => .ok ⟨.gt, pos⟩ :: tokenizeList fuel (pos + 1) cs
    else if c = '!' then
      match cs with
      | '=' :: rest => .ok ⟨.neq, pos⟩ :: tokenizeList fuel (pos + 2) rest
      | _ => [.error ⟨"unexpected token: !", pos⟩]
    else
      match singleCharToken c with
      | some t => .ok ⟨t, pos⟩ :: tokenizeList fuel (pos + 1) cs
      | Option.none =>
        [.error ⟨"unexpected or unsupported character " ++
          String.singleton c, pos⟩]

/-- Modelled from the spec: the full token sequence of an input string. -/
def tokenize (input : String) :
    List (Except TokenizerError TokenWithLocation) :=
  tokenizeList (input.length + 1) 0 input.data

/-! ## Parser state and primitives, embedded from `parser.rs`. The Rust
`Parser` owns a peekable iterator of tokenizer results plus the location
of the last consumed token; we represent the unconsumed part of that
iterator as a list. Errors abort via `Except`; the few places where Rust
keeps using the mutated parser after a failed call (`expect_semicolon`,
the varchar length check) are written out explicitly below. -/

deriving instance DecidableEq for Except

/-- The parser: remaining tokenizer results and the location of the last
consumed token (`struct Parser`). -/
structure ParserState where
  tokens : List (Except TokenizerError TokenWithLocation)
  location : Location
deriving DecidableEq, Repr

/-- `Parser::new`: wrap the tokenized input, location defaulted. -/
def ParserState.new (input : String) : ParserState :=
  ⟨tokenize input, 0⟩

/-- True on a whitespace token result (the pattern matched by
`skip_white_spaces`). -/
def isWhitespaceItem : Except TokenizerError TokenWithLocation → Bool
  | .ok twl =>
    match twl.token with
    | .whitespace _ => true
    | _ => false
  | .error _ => false

/-- `Parser::skip_white_spaces`: drop leading whitespace tokens; the
location is not updated. -/
def skipWhiteSpaces (s : ParserState) : ParserState :=
  { s with tokens := s.tokens.dropWhile isWhitespaceItem }

/-- `Parser::next_token`: skip whitespace, then consume one tokenizer
result. `None` from the iterator is an "unexpected EOF" error; a lexical
error is lifted through `From<TokenizerError>`; an ordinary token updates
the location. The state after the call is returned even on error, since
Rust keeps the mutated parser (`expect_semicolon` relies on it). -/
def nextToken (s : ParserState) :
    Except ParserError Token × ParserState :=
  let s1 := skipWhiteSpaces s
  match s1.tokens with
  | [] => (.error ⟨"unexpected EOF", s1.location⟩, s1)
  | .error e :: rest =>
    (.error (ParserError.fromTokenizerError e), { s1 with tokens := rest })
  | .ok twl :: rest =>
    (.ok twl.token, { tokens := rest, location := twl.location })

/-- `Parser::peek_token`: skip whitespace (consuming it), then look at the
next result without consuming it. -/
def peekToken (s : ParserState) :
    Option (Except TokenizerError Token) × ParserState :=
  let s1 := skipWhiteSpaces s
  (s1.tokens.head?.map (fun r => r.map TokenWithLocation.token), s1)

/-- `Parser::consume_optional_token`. -/
def consumeOptionalToken (optional : Token) (s : ParserState) :
    Bool × ParserState :=
  match peekToken s with
  | (some (.ok t), s1) =>
    if t = optional then (true, (nextToken s1).2) else (false, s1)
  | (_, s1) => (false, s1)

/-- `Parser::consume_optional_keyword`. -/
def consumeOptionalKeyword (optional : Keyword) (s : ParserState) :
    Bool × ParserState :=
  consumeOptionalToken (.keyword optional) s

/-- `Parser::consume_one_of`: first listed keyword that matches is
consumed and returned; otherwise `Keyword.none`. -/
def consumeOneOf (keywords : List Keyword) (s : ParserState) :
    Keyword × ParserState :=
  match keywords with
  | [] => (Keyword.none, s)
  | k :: rest =>
    match consumeOptionalKeyword k s with
    | (true, s1) => (k, s1)
    | (false, s1) => consumeOneOf rest s1

/-- `Parser::expect_token`. -/
def expectToken (expected : Token) (s : ParserState) :
    Except ParserError (Token × ParserState) :=
  match nextToken s with
  | (.ok t, s1) =>
    if t = expected then .ok (t, s1)
    else .error ⟨"expected token " ++ expected.display ++ ". Got " ++
      t.display ++ " instead", s1.location⟩
  | (.error e, _) => .error e

/-- `Parser::expect_keyword`. -/
def expectKeyword (expected : Keyword) (s : ParserState) :
    Except ParserError (Keyword × ParserState) :=
  (expectToken (.keyword expected) s).map (fun p => (expected, p.2))

/-- `Parser::expect_semicolon`: `expect_token(SemiColon)` with any error
replaced by the missing-terminator error at the now-current location. -/
def expectSemicolon (s : ParserState) :
    Except ParserError (Token × ParserState) :=
  match nextToken s with
  | (.ok .semiColon, s1) => .ok (Token.semiColon, s1)
  | (.ok _, s1) =>
    .error ⟨"missing " ++ quoted Token.semiColon.display ++
      " statement terminator", s1.location⟩
  | (.error _, s1) =>
    .error ⟨"missing " ++ quoted Token.semiColon.display ++
      " statement terminator", s1.location⟩

/-- Debug rendering of a keyword list, as in the `expect_one_of` error. -/
def keywordListDebug (keywords : List Keyword) : String :=
  "[" ++ String.intercalate ", " (keywords.map Keyword.debugName) ++ "]"

/-- `Parser::expect_one_of`. -/
def expectOneOf (keywords : List Keyword) (s : ParserState) :
    Except ParserError (Keyword × ParserState) :=
  match consumeOneOf keywords s with
  | (Keyword.none, s1) =>
    match nextToken s1 with
    | (.ok t, s2) =>
      .error ⟨"expected one of " ++ keywordListDebug keywords ++
        ". Got " ++ t.display ++ " instead", s2.location⟩
    | (.error e, _) => .error e
  | (k, s1) => .ok (k, s1)

/-- `Parser::parse_identifier`. -/
def parseIdentifier (s : ParserState) :
    Except ParserError (String × ParserState) :=
  match nextToken s with
  | (.ok (.identifier name), s1) => .ok (name, s1)
  | (.ok t, s1) =>
    .error ⟨"expected identifier. Got " ++ t.display ++ " instead",
      s1.location⟩
  | (.error e, _) => .error e

/-- `Parser::get_next_precedence`: precedence of the peeked token, `0`
when there is no well-formed next token. Peeking consumes whitespace, so
the advanced state is returned alongside. -/
def getNextPrecedence (s : ParserState) : Nat × ParserState :=
  match peekToken s with
  | (some (.ok t), s1) =>
    (match t with
     | .keyword .or => 5
     | .keyword .and => 10
     | .eq | .neq | .gt | .gtEq | .lt | .ltEq => 20
     | .plus | .minus => 30
     | .mul | .div => 40
     | _ => 0, s1)
  | (_, s1) => (0, s1)

/-- The operator table of `Parser::parse_infix`: which tokens act as
binary operators (the non-operator branch errors). -/
def tokenToOperator : Token → Option BinaryOperator
  | .plus => some .plus
  | .minus => some .minus
  | .div => some .div
  | .mul => some .mul
  | .eq => some .eq
  | .neq => some .neq
  | .gt => some .gt
  | .gtEq => some .gtEq
  | .lt => some .lt
  | .ltEq => some .ltEq
  | .keyword .and => some .and
  | .keyword .or => some .or
  | _ => Option.none

/-- Error used when the recursion fuel runs out. The Rust functions are
recursive without a bound; every entry point below supplies fuel larger
than any reachable recursion depth, so this error is an artifact that a
sufficiently fueled run never produces. -/
def fuelExhausted (s : ParserState) : ParserError :=
  ⟨"internal: recursion fuel exhausted", s.location⟩

/-! ## Expression parsing (`parse_expr` / `parse_prefix` / `parse_infix`):
precedence climbing. The `while precedence < next_precedence` loop of
`parse_expr` is the recursive `parseExprLoop`. -/

mutual

/-- `Parser::parse_expr`: parse one prefix term, then climb while the
next operator binds tighter than `precedence`. -/
def parseExpr : Nat → Nat → ParserState →
    Except ParserError (Expression × ParserState)
  | 0, _, s => .error (fuelExhausted s)
  | fuel + 1, precedence, s => do
    let (e, s1) ← parsePrefixExpr fuel s
    parseExprLoop fuel precedence e s1

/-- The loop of `Parser::parse_expr`: recompute the next precedence after
each binary combination; stop when it does not exceed `precedence`. -/
def parseExprLoop : Nat → Nat → Expression → ParserState →
    Except ParserError (Expression × ParserState)
  | 0, _, _, s => .error (fuelExhausted s)
  | fuel + 1, precedence, e, s =>
    let (np, s1) := getNextPrecedence s
    if precedence < np then do
      let (e2, s2) ← parseInfixExpr fuel e np s1
      parseExprLoop fuel precedence e2 s2
    else .ok (e, s1)

/-- `Parser::parse_prefix`: identifier, wildcard `*`, literal, or a
parenthesized sub-expression (parentheses consumed, not represented). -/
def parsePrefixExpr : Nat → ParserState →
    Except ParserError (Expression × ParserState)
  | 0, s => .error (fuelExhausted s)
  | fuel + 1, s =>
    match nextToken s with
    | (.error e, _) => .error e
    | (.ok t, s1) =>
      match t with
      | .identifier name => .ok (.identifier name, s1)
      | .mul => .ok (.wildcard, s1)
      | .number digits => .ok (.value (.number digits), s1)
      | .string content => .ok (.value (.string content), s1)
      | .leftParen => do
        let (e, s2) ← parseExpr fuel 0 s1
        let (_, s3) ← expectToken .rightParen s2
        .ok (e, s3)
      | other =>
        .error ⟨"expected an identifier, raw value or opening " ++
          "parenthesis. Got " ++ quoted other.display ++ " instead",
          s1.location⟩

/-- `Parser::parse_infix`: consume the operator token, then parse the
right operand with the operator precedence as the new floor. -/
def parseInfixExpr : Nat → Expression → Nat → ParserState →
    Except ParserError (Expression × ParserState)
  | 0, _, _, s => .error (fuelExhausted s)
  | fuel + 1, left, precedence, s =>
    match nextToken s with
    | (.error e, _) => .error e
    | (.ok t, s1) =>
      match tokenToOperator t with
      | some operator => do
        let (right, s2) ← parseExpr fuel precedence s1
        .ok (.binaryOperation left operator right, s2)
      | Option.none =>
        .error ⟨"expected an operator: [+, -, *, /, =, !=, <, >, <=, " ++
          ">=, AND, OR]. Got " ++ t.display ++ " instead", s1.location⟩

end

/-- `Parser::parse_expression`: entry with minimum precedence 0. -/
def parseExpression (fuel : Nat) (s : ParserState) :
    Except ParserError (Expression × ParserState) :=
  parseExpr fuel 0 s

/-! ## The generic comma-separated list combinator and its clients. -/

/-- The `while consume_optional_token(Comma)` loop of
`Parser::parse_comma_separated`. -/
def parseCommaSeparatedTail {α : Type} : Nat →
    (ParserState → Except ParserError (α × ParserState)) → ParserState →
    Except ParserError (List α × ParserState)
  | 0, _, s => .error (fuelExhausted s)
  | fuel + 1, subparser, s =>
    match consumeOptionalToken .comma s with
    | (true, s1) => do
      let (item, s2) ← subparser s1
      let (items, s3) ← parseCommaSeparatedTail fuel subparser s2
      .ok (item :: items, s3)
    | (false, s1) => .ok ([], s1)

/-- `Parser::parse_comma_separated`: optional (or required) surrounding
parentheses, one item, then items while commas follow. -/
def parseCommaSeparated {α : Type} (fuel : Nat)
    (subparser : ParserState → Except ParserError (α × ParserState))
    (requiredParenthesis : Bool) (s : ParserState) :
    Except ParserError (List α × ParserState) :=
  let (foundParen, s1) := consumeOptionalToken .leftParen s
  if requiredParenthesis && !foundParen then
    .error ⟨"opening parenthesis is required", s1.location⟩
  else do
    let (first, s2) ← subparser s1
    let (items, s3) ← parseCommaSeparatedTail fuel subparser s2
    if foundParen then
      let (_, s4) ← expectToken .rightParen s3
      .ok (first :: items, s4)
    else
      .ok (first :: items, s3)

/-- Value of a digit string read in base 10. -/
def digitsToNat (cs : List Char) : Nat :=
  cs.foldl (fun acc c => 10 * acc + (c.toNat - 48)) 0

/-- Modelled from the spec: the varchar length is parsed from the digit
text of the number token (Rust `str::parse::<usize>`); we model the
unsigned length as an unbounded natural number, defined for non-empty
all-digit text. -/
def parseLength (digits : String) : Option Nat :=
  if digits.data ≠ [] ∧ digits.data.all Char.isDigit then
    some (digitsToNat digits.data)
  else Option.none

/-- `Parser::parse_column`: identifier, data type (`INT`, or `VARCHAR`
with a parenthesized length), then an optional `PRIMARY KEY` or `UNIQUE`
constraint. -/
def parseColumn (s : ParserState) :
    Except ParserError (Column × ParserState) := do
  let (name, s1) ← parseIdentifier s
  match nextToken s1 with
  | (.error e, _) => .error e
  | (.ok (.keyword kw), s2) => do
    let (dataType, s3) ←
      (match kw with
       | Keyword.int =>
         (.ok (DataType.int, s2) :
           Except ParserError (DataType × ParserState))
       | Keyword.varchar => do
         let (_, s3) ← expectToken .leftParen s2
         match nextToken s3 with
         | (.ok (.number digits), s4) =>
           (match parseLength digits with
            | some length => do
              let (_, s5) ← expectToken .rightParen s4
              .ok (DataType.varchar length, s5)
            | Option.none => .error ⟨"incorrect varchar length", s4.location⟩)
         | (.ok _, s4) => .error ⟨"expected varchar length", s4.location⟩
         | (.error e, _) => .error e
       | other =>
         .error ⟨"unexpected keyword " ++ other.display, s2.location⟩)
    match consumeOneOf [Keyword.primary, Keyword.unique] s3 with
    | (Keyword.primary, s4) => do
      let (_, s5) ← expectKeyword Keyword.key s4
      .ok (⟨name, dataType, some Constraint.primaryKey⟩, s5)
    | (Keyword.unique, s4) =>
      .ok (⟨name, dataType, some Constraint.unique⟩, s4)
    | (_, s4) =>
      -- `consume_one_of` yields a listed keyword or `None`; the remaining
      -- patterns are `unreachable!()` in the source.
      .ok (⟨name, dataType, Option.none⟩, s4)
  | (.ok _, s2) => .error ⟨"expected data type", s2.location⟩

/-- `Parser::parse_comma_separated_expressions`. -/
def parseCommaSeparatedExpressions (fuel : Nat) (s : ParserState) :
    Except ParserError (List Expression × ParserState) :=
  parseCommaSeparated fuel (parseExpression fuel) false s

/-- `Parser::parse_schema`: required-parenthesized column definitions. -/
def parseSchema (fuel : Nat) (s : ParserState) :
    Except ParserError (List Column × ParserState) :=
  parseCommaSeparated fuel parseColumn true s

/-- `Parser::parse_identifier_list`: required-parenthesized identifiers. -/
def parseIdentifierList (fuel : Nat) (s : ParserState) :
    Except ParserError (List String × ParserState) :=
  parseCommaSeparated fuel parseIdentifier true s

/-- `Parser::parse_optional_where`. -/
def parseOptionalWhere (fuel : Nat) (s : ParserState) :
    Except ParserError (Option Expression × ParserState) :=
  match consumeOptionalKeyword Keyword.whereKw s with
  | (true, s1) => do
    let (e, s2) ← parseExpression fuel s1
    .ok (some e, s2)
  | (false, s1) => .ok (Option.none, s1)

/-- `Parser::parse_from_and_optional_where`. -/
def parseFromAndOptionalWhere (fuel : Nat) (s : ParserState) :
    Except ParserError ((String × Option Expression) × ParserState) := do
  let (fromTable, s1) ← parseIdentifier s
  let (whereCond, s2) ← parseOptionalWhere fuel s1
  .ok ((fromTable, whereCond), s2)

/-! ## Statement-level parsing. -/

/-- The body of `Parser::parse_statement`: the leading keyword must be a
`Keyword` token; dispatch on it to one of the six statement grammars.
(`parse_statement` runs this and then, only on success, demands the
semicolon terminator.) -/
def parseStatementBody (fuel : Nat) (s : ParserState) :
    Except ParserError (Statement × ParserState) :=
  match nextToken s with
  | (.error e, _) => .error e
  | (.ok (.keyword kw), s1) =>
    match kw with
    | Keyword.select => do
      let (columns, s2) ← parseCommaSeparatedExpressions fuel s1
      let (_, s3) ← expectKeyword Keyword.fromKw s2
      let ((fromTable, whereCond), s4) ← parseFromAndOptionalWhere fuel s3
      .ok (.select columns fromTable whereCond, s4)
    | Keyword.create => do
      let (k, s2) ← expectOneOf [Keyword.database, Keyword.table] s1
      let (ident, s3) ← parseIdentifier s2
      match k with
      | Keyword.database => .ok (.create (.database ident), s3)
      | Keyword.table => do
        let (columns, s4) ← parseSchema fuel s3
        .ok (.create (.table ident columns), s4)
      | _ => .error ⟨"unreachable", s3.location⟩
    | Keyword.update => do
      let (table, s2) ← parseIdentifier s1
      let (_, s3) ← expectKeyword Keyword.set s2
      let (columns, s4) ← parseCommaSeparatedExpressions fuel s3
      let (whereCond, s5) ← parseOptionalWhere fuel s4
      .ok (.update table columns whereCond, s5)
    | Keyword.insert => do
      let (_, s2) ← expectKeyword Keyword.into s1
      let (into, s3) ← parseIdentifier s2
      let (columns, s4) ← parseIdentifierList fuel s3
      let (_, s5) ← expectKeyword Keyword.values s4
      let (values, s6) ← parseCommaSeparatedExpressions fuel s5
      .ok (.insert into columns values, s6)
    | Keyword.delete => do
      let (_, s2) ← expectKeyword Keyword.fromKw s1
      let ((fromTable, whereCond), s3) ← parseFromAndOptionalWhere fuel s2
      .ok (.delete fromTable whereCond, s3)
    | Keyword.drop => do
      let (k, s2) ← expectOneOf [Keyword.database, Keyword.table] s1
      let (ident, s3) ← parseIdentifier s2
      match k with
      | Keyword.database => .ok (.drop (.database ident), s3)
      | Keyword.table => .ok (.drop (.table ident), s3)
      | _ => .error ⟨"unreachable", s3.location⟩
    | Keyword.none => .error ⟨"expected SQL statement", s1.location⟩
    | _ =>
      .error ⟨"unexpected initial statement keyword: " ++ kw.display,
        s1.location⟩
  | (.ok _, s1) =>
    .error ⟨"unexpected initial token. Statements must start with one " ++
      "of the supported keywords.", s1.location⟩

/-- `Parser::parse_statement`: the body, then — only when the body
succeeded — the mandatory semicolon terminator. -/
def parseStatement (fuel : Nat) (s : ParserState) :
    Except ParserError (Statement × ParserState) :=
  match parseStatementBody fuel s with
  | .ok (st, s1) => do
    let (_, s2) ← expectSemicolon s1
    .ok (st, s2)
  | .error e => .error e

/-- `Parser::try_parse`: statements until `Eof` (or exhaustion); the
first error aborts the whole call. -/
def tryParseLoop : Nat → ParserState →
    Except ParserError (List Statement × ParserState)
  | 0, s => .error (fuelExhausted s)
  | fuel + 1, s =>
    match peekToken s with
    | (some (.ok Token.eof), s1) => .ok ([], s1)
    | (Option.none, s1) => .ok ([], s1)
    | (_, s1) => do
      let (st, s2) ← parseStatement fuel s1
      let (stmts, s3) ← tryParseLoop fuel s2
      .ok (st :: stmts, s3)

/-! ## Entry points. The fuel supplied here exceeds any recursion depth
reachable while consuming the given token list (each consumed token
accounts for a bounded number of recursive calls). -/

/-- Fuel that is always sufficient for the given state. -/
def defaultFuel (s : ParserState) : Nat := 8 * (s.tokens.length + 1)

/-- `Parser::new(input).try_parse()`: the public entry point. -/
def tryParse (input : String) : Except ParserError (List Statement) :=
  let s := ParserState.new input
  (tryParseLoop (defaultFuel s) s).map Prod.fst

/-- `Parser::new(input).parse_expression()`, as used by the expression
tests. -/
def runParseExpression (input : String) :
    Except ParserError (Expression × ParserState) :=
  let s := ParserState.new input
  parseExpr (defaultFuel s) 0 s

/-- `Parser::new(input).parse_statement()`, as used by the statement
tests. -/
def runParseStatement (input : String) :
    Except ParserError (Statement × ParserState) :=
  let s := ParserState.new input
  parseStatement (defaultFuel s) s

/-- `parse_expression` on an explicit token stream (location counter
starting at 0). -/
def parseExpressionTokens
    (ts : List (Except TokenizerError TokenWithLocation)) :
    Except ParserError (Expression × ParserState) :=
  parseExpr (8 * (ts.length + 1)) 0 ⟨ts, 0⟩

/-- `parse_column` on an input string (used to exercise the column
grammar in isolation). -/
def runParseColumn (input : String) :
    Except ParserError (Column × ParserState) :=
  parseColumn (ParserState.new input)

/-! ## Theorems about the claims. -/

/-- The operator precedence table exactly as the specification states it
(higher binds tighter): OR 5, AND 10, the comparison operators 20, plus
and minus 30, mul and div 40, every other token 0. Stated from the spec
to compare against `getNextPrecedence`. -/
def precedenceTableSpec : Token → Nat
  | .keyword .or => 5
  | .keyword .and => 10
  | .eq => 20
  | .neq => 20
  | .lt => 20
  | .ltEq => 20
  | .gt => 20
  | .gtEq => 20
  | .plus => 30
  | .minus => 30
  | .mul => 40
  | .div => 40
  | _ => 0

/-- The token that `parse_infix` maps to a given binary operator (the
inverse of `tokenToOperator`, used to state claims about operators). -/
def operatorToken : BinaryOperator → Token
  | .plus => .plus
  | .minus => .minus
  | .div => .div
  | .mul => .mul
  | .eq => .eq
  | .neq => .neq
  | .gt => .gt
  | .gtEq => .gtEq
  | .lt => .lt
  | .ltEq => .ltEq
  | .and => .keyword .and
  | .or => .keyword .or

/-- C2: the operator-precedence function assigns to the peeked token
exactly the values of the spec table — OR 5, AND 10, each comparison 20,
plus/minus 30, mul/div 40, and 0 for every other token — and a zero next
precedence terminates the climbing loop immediately. -/
theorem claim_C2_precedence_table (t : Token) (l : Location)
    (rest : List (Except TokenizerError TokenWithLocation))
    (loc : Location) (hws : isWhitespaceItem (.ok ⟨t, l⟩) = false) :
    (getNextPrecedence ⟨.ok ⟨t, l⟩ :: rest, loc⟩).1 =
      precedenceTableSpec t ∧
    (∀ fuel precedence e s, (getNextPrecedence s).1 = 0 →
      parseExprLoop (fuel + 1) precedence e s =
        .ok (e, (getNextPrecedence s).2)) := by
  constructor
  · cases t
    case keyword k => cases k <;> rfl
    case whitespace w => simp [isWhitespaceItem] at hws
    all_goals rfl
  · intro fuel precedence e s h
    simp only [parseExprLoop]
    rw [show getNextPrecedence s =
      ((getNextPrecedence s).1, (getNextPrecedence s).2) from rfl, h]
    simp

/-- Witness for C2 at the concrete non-operator token `,`. -/
theorem claim_C2_precedence_table_witness :
    (getNextPrecedence ⟨[.ok ⟨Token.comma, 3⟩], 0⟩).1 =
      precedenceTableSpec Token.comma ∧
    (∀ fuel precedence e s, (getNextPrecedence s).1 = 0 →
      parseExprLoop (fuel + 1) precedence e s =
        .ok (e, (getNextPrecedence s).2)) :=
  claim_C2_precedence_table Token.comma 3 [] 0 (by decide)

/-- C3: for `a op1 b op2 c` with `op1` and `op2` binary operators of
equal precedence, `parse_expression` yields the left-associated tree
`BinaryOperation(op2, BinaryOperation(op1, a, b), c)`, whatever the
identifiers and token locations are. -/
theorem claim_C3_equal_precedence_left_assoc
    (op1 op2 : BinaryOperator) (a b c : String)
    (la lo1 lb lo2 lc le : Location)
    (h : precedenceTableSpec (operatorToken op1) =
      precedenceTableSpec (operatorToken op2)) :
    parseExpressionTokens
      [.ok ⟨.identifier a, la⟩, .ok ⟨operatorToken op1, lo1⟩,
       .ok ⟨.identifier b, lb⟩, .ok ⟨operatorToken op2, lo2⟩,
       .ok ⟨.identifier c, lc⟩, .ok ⟨.eof, le⟩] =
      .ok (.binaryOperation
        (.binaryOperation (.identifier a) op1 (.identifier b)) op2
        (.identifier c),
        ⟨[.ok ⟨.eof, le⟩], lc⟩) := by
  cases op1 <;> cases op2 <;> first
    | rfl
    | exact absurd h (by decide)

/-- Witness for C3 at `a - b - c`. -/
theorem claim_C3_equal_precedence_left_assoc_witness :
    parseExpressionTokens
      [.ok ⟨.identifier "a", 0⟩, .ok ⟨operatorToken .minus, 2⟩,
       .ok ⟨.identifier "b", 4⟩, .ok ⟨operatorToken .minus, 6⟩,
       .ok ⟨.identifier "c", 8⟩, .ok ⟨.eof, 9⟩] =
      .ok (.binaryOperation
        (.binaryOperation (.identifier "a") .minus (.identifier "b"))
        .minus (.identifier "c"),
        ⟨[.ok ⟨.eof, 9⟩], 8⟩) :=
  claim_C3_equal_precedence_left_assoc .minus .minus "a" "b" "c"
    0 2 4 6 8 9 (by decide)

/-- C7: every tokenizer error is lifted into the single parser error
shape by prefixing its message with "syntax error: " and keeping its
location unchanged; `next_token` surfaces exactly that converted error. -/
theorem claim_C7_error_lifting (err : TokenizerError)
    (rest : List (Except TokenizerError TokenWithLocation))
    (loc : Location) :
    ParserError.fromTokenizerError err =
      ⟨"syntax error: " ++ err.message, err.location⟩ ∧
    (nextToken ⟨.error err :: rest, loc⟩).1 =
      .error ⟨"syntax error: " ++ err.message, err.location⟩ :=
  ⟨rfl, rfl⟩

/-- C1: parsing `price * discount / 100 < 10 + 20 * 30` with
`parse_expression` succeeds and yields exactly the tree
`((price * discount) / 100) < (10 + (20 * 30))`: an `Lt` binary operation
whose left child is `Div(Mul(price, discount), 100)` and whose right
child is `Plus(10, Mul(20, 30))`. -/
theorem claim_C1_precedence_example :
    (runParseExpression "price * discount / 100 < 10 + 20 * 30").map
        Prod.fst =
      .ok (.binaryOperation
        (.binaryOperation
          (.binaryOperation (.identifier "price") .mul
            (.identifier "discount"))
          .div (.value (.number "100")))
        .lt
        (.binaryOperation (.value (.number "10")) .plus
          (.binaryOperation (.value (.number "20")) .mul
            (.value (.number "30"))))) := by
  decide

/-- `Except.ok` bound into a continuation. -/
theorem exceptBind_ok {ε α β : Type} (x : α) (f : α → Except ε β) :
    (Except.ok x >>= f) = f x := rfl

/-- `Except.error` bound into a continuation. -/
theorem exceptBind_error {ε α β : Type} (e : ε) (f : α → Except ε β) :
    ((Except.error e : Except ε α) >>= f) = .error e := rfl

/-- C5: when the statement body parses successfully but the next
meaningful token is not a semicolon, `parse_statement` errors with the
missing-terminator message; and when the body itself fails, its error is
returned as is (the semicolon check only runs after a successful body). -/
theorem claim_C5_semicolon_terminator (fuel : Nat) (s : ParserState) :
    (∀ st s1, parseStatementBody fuel s = .ok (st, s1) →
      (nextToken s1).1 ≠ .ok Token.semiColon →
      parseStatement fuel s =
        .error ⟨"missing " ++ quoted Token.semiColon.display ++
          " statement terminator", (nextToken s1).2.location⟩) ∧
    (∀ e, parseStatementBody fuel s = .error e →
      parseStatement fuel s = .error e) := by
  constructor
  · intro st s1 hbody hnosemi
    simp only [parseStatement, hbody]
    rcases hn : nextToken s1 with ⟨r, s2⟩
    cases r with
    | ok t =>
      cases t <;>
        simp_all [expectSemicolon, hn, exceptBind_ok, exceptBind_error]
    | error e =>
      simp_all [expectSemicolon, hn, exceptBind_ok, exceptBind_error]
  · intro e herr
    simp [parseStatement, herr]

/-- Witness for C5: `DROP TABLE test` (no terminator) has a well-formed
body but `parse_statement` reports the missing semicolon. -/
theorem claim_C5_semicolon_terminator_witness :
    parseStatement (defaultFuel (ParserState.new "DROP TABLE test"))
        (ParserState.new "DROP TABLE test") =
      .error ⟨"missing " ++ quoted Token.semiColon.display ++
        " statement terminator", 15⟩ :=
  (claim_C5_semicolon_terminator
      (defaultFuel (ParserState.new "DROP TABLE test"))
      (ParserState.new "DROP TABLE test")).1
    (.drop (.table "test")) ⟨[.ok ⟨.eof, 15⟩], 11⟩ (by decide) (by decide)

/-- C6: `try_parse` is all-or-nothing. The three-statement batch parses
into the three statements in order; the same batch with the last
terminator missing fails as a whole with a single error (no partial
two-element result); and in general, whenever the next meaningful token
starts a statement and that statement fails, the whole loop returns that
error. -/
theorem claim_C6_try_parse_all_or_nothing :
    tryParse ("DROP TABLE test; UPDATE users SET is_admin = 1; " ++
        "SELECT * FROM products;") =
      .ok [.drop (.table "test"),
        .update "users"
          [.binaryOperation (.identifier "is_admin") .eq
            (.value (.number "1"))] Option.none,
        .select [.wildcard] "products" Option.none] ∧
    tryParse ("DROP TABLE test; UPDATE users SET is_admin = 1; " ++
        "SELECT * FROM products") =
      .error ⟨"missing " ++ quoted Token.semiColon.display ++
        " statement terminator", 70⟩ ∧
    (∀ fuel s e, (peekToken s).1 ≠ some (.ok Token.eof) →
      (peekToken s).1 ≠ Option.none →
      parseStatement fuel (peekToken s).2 = .error e →
      tryParseLoop (fuel + 1) s = .error e) := by
  refine ⟨by decide, by decide, ?_⟩
  intro fuel s e h1 h2 herr
  rcases hp : peekToken s with ⟨o, s1⟩
  rw [hp] at herr h1 h2
  dsimp only at herr h1 h2
  simp only [tryParseLoop, hp]
  cases o with
  | none => exact absurd rfl h2
  | some r =>
    cases r with
    | error te => simp [herr, exceptBind_error]
    | ok t => cases t <;> simp_all [exceptBind_error]

/-- Witness for C6: a failing first statement aborts the loop with that
exact error. -/
theorem claim_C6_try_parse_all_or_nothing_witness :
    tryParseLoop (8 + 1) (ParserState.new "TABLE test;") =
      .error ⟨"unexpected initial statement keyword: TABLE", 0⟩ :=
  claim_C6_try_parse_all_or_nothing.2.2 8 (ParserState.new "TABLE test;")
    ⟨"unexpected initial statement keyword: TABLE", 0⟩
    (by decide) (by decide) (by decide)

/-- C8: the comma-separated list combinator (1) never succeeds with an
empty list; (3) with the required-parenthesis flag set and no opening
parenthesis, it fails before running the item subparser at all (for every
subparser); (2) a present opening parenthesis is consumed and the
matching closing parenthesis is required after the last item; (4) items
continue exactly while a comma follows. -/
theorem claim_C8_comma_separated_combinator {α : Type} (fuel : Nat)
    (subparser : ParserState → Except ParserError (α × ParserState))
    (requiredParenthesis : Bool) (s : ParserState) :
    (∀ items s1,
      parseCommaSeparated fuel subparser requiredParenthesis s =
        .ok (items, s1) → items ≠ []) ∧
    ((peekToken s).1 ≠ some (.ok Token.leftParen) →
      parseCommaSeparated fuel subparser true s =
        .error ⟨"opening parenthesis is required",
          (peekToken s).2.location⟩) ∧
    parseCommaSeparated 8 parseIdentifier false
        (ParserState.new "(a, b)") =
      .ok (["a", "b"], ⟨[.ok ⟨.eof, 6⟩], 5⟩) ∧
    parseCommaSeparated 8 parseIdentifier false
        (ParserState.new "(a, b") =
      .error ⟨"expected token ). Got EOF instead", 5⟩ ∧
    parseCommaSeparated 8 parseIdentifier false
        (ParserState.new "a , b c") =
      .ok (["a", "b"], ⟨[.ok ⟨.identifier "c", 6⟩, .ok ⟨.eof, 7⟩], 4⟩) := by
  refine ⟨?_, ?_, by decide, by decide, by decide⟩
  · intro items s1 h
    rcases hc : consumeOptionalToken Token.leftParen s with ⟨fp, s2⟩
    simp only [parseCommaSeparated, hc] at h
    split at h
    · exact absurd h (by simp)
    · rcases hsub : subparser s2 with e | ⟨x, s3⟩ <;> rw [hsub] at h
      · simp [exceptBind_error] at h
      · rw [exceptBind_ok] at h
        rcases htail : parseCommaSeparatedTail fuel subparser s3 with
          e | ⟨xs, s4⟩ <;> rw [htail] at h
        · simp [exceptBind_error] at h
        · rw [exceptBind_ok] at h
          cases fp with
          | false => simp at h; simp [← h.1]
          | true =>
            simp only at h
            rcases hrp : expectToken Token.rightParen s4 with
              e | ⟨tk, s5⟩ <;> rw [hrp] at h
            · simp [exceptBind_error] at h
            · rw [exceptBind_ok] at h
              simp at h
              simp [← h.1]
  · intro hnp
    rcases hp : peekToken s with ⟨o, s1⟩
    rw [hp] at hnp
    simp only at hnp
    have hc : consumeOptionalToken Token.leftParen s = (false, s1) := by
      simp only [consumeOptionalToken, hp]
      cases o with
      | none => rfl
      | some r =>
        cases r with
        | error te => rfl
        | ok t =>
          have : t ≠ Token.leftParen := fun he => hnp (by rw [he])
          simp [this]
    simp only [parseCommaSeparated, hc]
    simp

/-- Witness for C8: list non-emptiness at `(a, b)` and the
required-parenthesis failure at `a , b`. -/
theorem claim_C8_comma_separated_combinator_witness :
    (["a", "b"] : List String) ≠ [] ∧
    parseCommaSeparated 8 parseIdentifier true (ParserState.new "a , b") =
      .error ⟨"opening parenthesis is required", 0⟩ :=
  ⟨(claim_C8_comma_separated_combinator 8 parseIdentifier false
      (ParserState.new "(a, b)")).1 ["a", "b"] ⟨[.ok ⟨.eof, 6⟩], 5⟩
      (by decide),
   (claim_C8_comma_separated_combinator 8 parseIdentifier true
      (ParserState.new "a , b")).2.1 (by decide)⟩

/-- C9: `CREATE TABLE users (id INT PRIMARY KEY, name VARCHAR(255),
email VARCHAR(255) UNIQUE);` parses to `Create::Table` named `users` with
exactly the three columns `{id, Int, PrimaryKey}`, `{name, Varchar 255,
no constraint}`, `{email, Varchar 255, Unique}`; and the column grammar
is identifier, then `INT` or `VARCHAR` with a parenthesized length
(missing or malformed length is an error), then an optional
`PRIMARY KEY` or `UNIQUE` constraint. -/
theorem claim_C9_create_table_schema :
    (runParseStatement ("CREATE TABLE users (id INT PRIMARY KEY, " ++
        "name VARCHAR(255), email VARCHAR(255) UNIQUE);")).map Prod.fst =
      .ok (.create (.table "users"
        [⟨"id", .int, some .primaryKey⟩,
         ⟨"name", .varchar 255, Option.none⟩,
         ⟨"email", .varchar 255, some .unique⟩])) ∧
    (runParseColumn "id INT").map Prod.fst =
      .ok ⟨"id", .int, Option.none⟩ ∧
    (runParseColumn "name VARCHAR(10) PRIMARY KEY").map Prod.fst =
      .ok ⟨"name", .varchar 10, some .primaryKey⟩ ∧
    (runParseColumn "email VARCHAR(255) UNIQUE").map Prod.fst =
      .ok ⟨"email", .varchar 255, some .unique⟩ ∧
    runParseColumn "x VARCHAR()" =
      .error ⟨"expected varchar length", 10⟩ ∧
    runParseColumn "x VARCHAR(abc)" =
      .error ⟨"expected varchar length", 10⟩ ∧
    runParseColumn "x VARCHAR" =
      .error ⟨"expected token (. Got EOF instead", 9⟩ := by
  refine ⟨by decide, by decide, by decide, by decide, by decide,
    by decide, by decide⟩

/-- C10: in `SELECT (a + b) * c FROM t;` the list combinator takes the
opening parenthesis as the optional list delimiter, so after the inner
expression it demands the closing parenthesis and then `FROM`; the
trailing `* c` is rejected and `try_parse` errors — although
`(a + b) * c` parses fine as a standalone expression. -/
theorem claim_C10_select_paren_ambiguity :
    tryParse "SELECT (a + b) * c FROM t;" =
      .error ⟨"expected token FROM. Got * instead", 15⟩ ∧
    (runParseExpression "(a + b) * c").map Prod.fst =
      .ok (.binaryOperation
        (.binaryOperation (.identifier "a") .plus (.identifier "b"))
        .mul (.identifier "c")) := by
  refine ⟨by decide, by decide⟩

/-! ## The frame development for claim C4: a parse that consumes its
stream down to the end-of-input token behaves identically when the
stream continues with a closing parenthesis instead, since the parser
has one-token lookahead and both tokens end an expression. -/

theorem dropWhile_append_cons {α : Type} (p : α → Bool) (l₁ l₂ : List α)
    (x : α) (h : p x = false) :
    (l₁ ++ x :: l₂).dropWhile p = l₁.dropWhile p ++ x :: l₂ := by
  induction l₁ with
  | nil => simp [List.dropWhile, h]
  | cons a l ih => simp [List.dropWhile]; split <;> simp [ih, h]

theorem nextToken_suffix (s : ParserState) :
    ((nextToken s).2).tokens <:+ s.tokens := by
  have hsfx : s.tokens.dropWhile isWhitespaceItem <:+ s.tokens :=
    List.dropWhile_suffix isWhitespaceItem
  unfold nextToken skipWhiteSpaces
  dsimp only
  split
  · exact hsfx
  · next e rest heq => exact (List.suffix_cons _ _).trans (heq ▸ hsfx)
  · next twl rest heq => exact (List.suffix_cons _ _).trans (heq ▸ hsfx)

theorem expectToken_suffix (t : Token) (s : ParserState) (tk : Token)
    (s1 : ParserState) (h : expectToken t s = .ok (tk, s1)) :
    s1.tokens <:+ s.tokens := by
  unfold expectToken at h
  rcases hn : nextToken s with ⟨r, s2⟩
  rw [hn] at h
  cases r with
  | error e => simp at h
  | ok t2 =>
    simp only at h
    split at h
    · cases h
      have := nextToken_suffix s
      rw [hn] at this
      exact this
    · simp at h

theorem getNextPrecedence_snd (s : ParserState) :
    (getNextPrecedence s).2 = skipWhiteSpaces s := by
  unfold getNextPrecedence peekToken
  dsimp only
  split <;> rename_i heq <;> (injection heq with h1 h2; rw [← h2])

theorem getNextPrecedence_suffix (s : ParserState) :
    ((getNextPrecedence s).2).tokens <:+ s.tokens := by
  rw [getNextPrecedence_snd]
  exact List.dropWhile_suffix isWhitespaceItem


theorem parseExprFamily_suffix : ∀ fuel : Nat,
    (∀ p s e s1, parseExpr fuel p s = .ok (e, s1) →
      s1.tokens <:+ s.tokens) ∧
    (∀ p e0 s e s1, parseExprLoop fuel p e0 s = .ok (e, s1) →
      s1.tokens <:+ s.tokens) ∧
    (∀ s e s1, parsePrefixExpr fuel s = .ok (e, s1) →
      s1.tokens <:+ s.tokens) ∧
    (∀ left p s e s1, parseInfixExpr fuel left p s = .ok (e, s1) →
      s1.tokens <:+ s.tokens) := by
  intro fuel
  induction fuel with
  | zero =>
    refine ⟨?_, ?_, ?_, ?_⟩
    · intro p s e s1 h; simp [parseExpr] at h
    · intro p e0 s e s1 h; simp [parseExprLoop] at h
    · intro s e s1 h; simp [parsePrefixExpr] at h
    · intro left p s e s1 h; simp [parseInfixExpr] at h
  | succ fuel ih =>
    obtain ⟨ihE, ihL, ihP, ihI⟩ := ih
    refine ⟨?_, ?_, ?_, ?_⟩
    · intro p s e s1 h
      simp only [parseExpr] at h
      rcases hpre : parsePrefixExpr fuel s with err | ⟨e0, s2⟩ <;>
        rw [hpre] at h
      · simp [exceptBind_error] at h
      · rw [exceptBind_ok] at h
        exact (ihL _ _ _ _ _ h).trans (ihP _ _ _ hpre)
    · intro p e0 s e s1 h
      simp only [parseExprLoop] at h
      rcases hg : getNextPrecedence s with ⟨np, s2⟩
      rw [hg] at h
      have hs2 : s2.tokens <:+ s.tokens := by
        have := getNextPrecedence_suffix s
        rw [hg] at this
        exact this
      split at h
      · rcases hinf : parseInfixExpr fuel e0 np s2 with err | ⟨e1, s3⟩ <;>
          rw [hinf] at h
        · simp [exceptBind_error] at h
        · rw [exceptBind_ok] at h
          exact ((ihL _ _ _ _ _ h).trans (ihI _ _ _ _ _ hinf)).trans hs2
      · cases h
        exact hs2
    · intro s e s1 h
      simp only [parsePrefixExpr] at h
      rcases hn : nextToken s with ⟨r, s2⟩
      rw [hn] at h
      have hs2 : s2.tokens <:+ s.tokens := by
        have := nextToken_suffix s
        rw [hn] at this
        exact this
      cases r with
      | error err => simp at h
      | ok t =>
        cases t
        case leftParen =>
          simp only at h
          rcases hin : parseExpr fuel 0 s2 with err | ⟨e2, s3⟩ <;>
            rw [hin] at h
          · simp [exceptBind_error] at h
          · rw [exceptBind_ok] at h
            rcases hrp : expectToken Token.rightParen s3 with err | ⟨tk, s4⟩ <;>
              rw [hrp] at h
            · simp [exceptBind_error] at h
            · rw [exceptBind_ok] at h
              cases h
              exact ((expectToken_suffix _ _ _ _ hrp).trans
                (ihE _ _ _ _ hin)).trans hs2
        all_goals first
          | (simp at h; obtain ⟨h1, h2⟩ := h; subst h2; exact hs2)
          | simp at h
    · intro left p s e s1 h
      simp only [parseInfixExpr] at h
      rcases hn : nextToken s with ⟨r, s2⟩
      rw [hn] at h
      have hs2 : s2.tokens <:+ s.tokens := by
        have := nextToken_suffix s
        rw [hn] at this
        exact this
      cases r with
      | error err => simp at h
      | ok t =>
        simp only at h
        rcases hop : tokenToOperator t with _ | op <;> rw [hop] at h
        · simp at h
        · simp only at h
          rcases hin : parseExpr fuel p s2 with err | ⟨e2, s3⟩ <;>
            rw [hin] at h
          · simp [exceptBind_error] at h
          · rw [exceptBind_ok] at h
            cases h
            exact (ihE _ _ _ _ hin).trans hs2


theorem nextToken_eq_cons_ok (tokens : List (Except TokenizerError TokenWithLocation))
    (loc : Location) (twl : TokenWithLocation)
    (rest : List (Except TokenizerError TokenWithLocation))
    (hd : tokens.dropWhile isWhitespaceItem = .ok twl :: rest) :
    nextToken ⟨tokens, loc⟩ = (.ok twl.token, ⟨rest, twl.location⟩) := by
  unfold nextToken skipWhiteSpaces
  dsimp only
  rw [hd]

theorem nextToken_eq_cons_error (tokens : List (Except TokenizerError TokenWithLocation))
    (loc : Location) (te : TokenizerError)
    (rest : List (Except TokenizerError TokenWithLocation))
    (hd : tokens.dropWhile isWhitespaceItem = .error te :: rest) :
    nextToken ⟨tokens, loc⟩ =
      (.error (ParserError.fromTokenizerError te), ⟨rest, loc⟩) := by
  unfold nextToken skipWhiteSpaces
  dsimp only
  rw [hd]

theorem gnp_eq_cons_ok (tokens : List (Except TokenizerError TokenWithLocation))
    (loc : Location) (twl : TokenWithLocation)
    (rest : List (Except TokenizerError TokenWithLocation))
    (hd : tokens.dropWhile isWhitespaceItem = .ok twl :: rest) :
    getNextPrecedence ⟨tokens, loc⟩ =
      (precedenceTableSpec twl.token, ⟨.ok twl :: rest, loc⟩) := by
  unfold getNextPrecedence peekToken skipWhiteSpaces
  dsimp only
  rw [hd]
  rcases twl with ⟨t, l⟩
  cases t
  case keyword k => cases k <;> rfl
  all_goals rfl

theorem gnp_eq_cons_error (tokens : List (Except TokenizerError TokenWithLocation))
    (loc : Location) (te : TokenizerError)
    (rest : List (Except TokenizerError TokenWithLocation))
    (hd : tokens.dropWhile isWhitespaceItem = .error te :: rest) :
    getNextPrecedence ⟨tokens, loc⟩ = (0, ⟨.error te :: rest, loc⟩) := by
  unfold getNextPrecedence peekToken skipWhiteSpaces
  dsimp only
  rw [hd]
  rfl


theorem prodFst_mk {α β : Type} (a : α) (b : β) : (a, b).1 = a := rfl

theorem expectToken_rparen_frame (le lr le2 : Location)
    (mid3 : List (Except TokenizerError TokenWithLocation)) (l3 : Location)
    (tk : Token) (mid : List (Except TokenizerError TokenWithLocation))
    (lc : Location)
    (h : expectToken Token.rightParen
        ⟨mid3 ++ [Except.ok (⟨Token.eof, le⟩ : TokenWithLocation)], l3⟩ =
      .ok (tk, ⟨mid ++ [Except.ok (⟨Token.eof, le⟩ : TokenWithLocation)],
        lc⟩)) :
    expectToken Token.rightParen
        ⟨mid3 ++ [Except.ok (⟨Token.rightParen, lr⟩ : TokenWithLocation),
          Except.ok (⟨Token.eof, le2⟩ : TokenWithLocation)], l3⟩ =
      .ok (tk, ⟨mid ++ [Except.ok (⟨Token.rightParen, lr⟩ :
          TokenWithLocation),
          Except.ok (⟨Token.eof, le2⟩ : TokenWithLocation)], lc⟩) := by
  have hT : (mid3 ++ [Except.ok (⟨Token.eof, le⟩ :
        TokenWithLocation)]).dropWhile isWhitespaceItem
      = mid3.dropWhile isWhitespaceItem ++
        [Except.ok (⟨Token.eof, le⟩ : TokenWithLocation)] :=
    dropWhile_append_cons _ _ _ _ rfl
  have hT' : (mid3 ++ [Except.ok (⟨Token.rightParen, lr⟩ :
        TokenWithLocation),
        Except.ok (⟨Token.eof, le2⟩ : TokenWithLocation)]).dropWhile
        isWhitespaceItem
      = mid3.dropWhile isWhitespaceItem ++
        [Except.ok (⟨Token.rightParen, lr⟩ : TokenWithLocation),
         Except.ok (⟨Token.eof, le2⟩ : TokenWithLocation)] :=
    dropWhile_append_cons _ _ _ _ rfl
  unfold expectToken at h ⊢
  rcases hd : mid3.dropWhile isWhitespaceItem with _ | ⟨r, rest⟩
  · rw [hd, List.nil_append] at hT
    rw [nextToken_eq_cons_ok _ l3 ⟨Token.eof, le⟩ [] hT] at h
    simp at h
  · cases r with
    | error te =>
      rw [hd, List.cons_append] at hT
      rw [nextToken_eq_cons_error _ l3 te _ hT] at h
      simp at h
    | ok twl2 =>
      rw [hd, List.cons_append] at hT hT'
      rw [nextToken_eq_cons_ok _ l3 twl2 _ hT] at h
      rw [nextToken_eq_cons_ok _ l3 twl2 _ hT']
      dsimp only at h ⊢
      by_cases heq : twl2.token = Token.rightParen
      · rw [if_pos heq] at h
        rw [if_pos heq]
        simp only [Except.ok.injEq, Prod.mk.injEq, ParserState.mk.injEq]
          at h ⊢
        obtain ⟨htk, hm, hl⟩ := h
        have hmid : rest = mid := List.append_cancel_right hm
        subst htk hl hmid
        exact ⟨rfl, rfl, rfl⟩
      · rw [if_neg heq] at h
        simp at h

theorem prodSnd_mk {α β : Type} (a : α) (b : β) : (a, b).2 = b := rfl

theorem parseExprFamily_frame (le lr le2 : Location) : ∀ fuel : Nat,
    (∀ p core mid loc loc2 e lc,
      parseExpr fuel p ⟨core ++ [.ok ⟨.eof, le⟩], loc⟩ =
        .ok (e, ⟨mid ++ [.ok ⟨.eof, le⟩], lc⟩) →
      parseExpr fuel p ⟨core ++ [.ok ⟨.rightParen, lr⟩, .ok ⟨.eof, le2⟩],
          loc2⟩ =
        .ok (e, ⟨mid ++ [.ok ⟨.rightParen, lr⟩, .ok ⟨.eof, le2⟩], lc⟩)) ∧
    (∀ p e0 core mid loc e lc,
      parseExprLoop fuel p e0 ⟨core ++ [.ok ⟨.eof, le⟩], loc⟩ =
        .ok (e, ⟨mid ++ [.ok ⟨.eof, le⟩], lc⟩) →
      parseExprLoop fuel p e0
          ⟨core ++ [.ok ⟨.rightParen, lr⟩, .ok ⟨.eof, le2⟩], loc⟩ =
        .ok (e, ⟨mid ++ [.ok ⟨.rightParen, lr⟩, .ok ⟨.eof, le2⟩], lc⟩)) ∧
    (∀ core mid loc loc2 e lc,
      parsePrefixExpr fuel ⟨core ++ [.ok ⟨.eof, le⟩], loc⟩ =
        .ok (e, ⟨mid ++ [.ok ⟨.eof, le⟩], lc⟩) →
      parsePrefixExpr fuel
          ⟨core ++ [.ok ⟨.rightParen, lr⟩, .ok ⟨.eof, le2⟩], loc2⟩ =
        .ok (e, ⟨mid ++ [.ok ⟨.rightParen, lr⟩, .ok ⟨.eof, le2⟩], lc⟩)) ∧
    (∀ left p core mid loc e lc,
      parseInfixExpr fuel left p ⟨core ++ [.ok ⟨.eof, le⟩], loc⟩ =
        .ok (e, ⟨mid ++ [.ok ⟨.eof, le⟩], lc⟩) →
      parseInfixExpr fuel left p
          ⟨core ++ [.ok ⟨.rightParen, lr⟩, .ok ⟨.eof, le2⟩], loc⟩ =
        .ok (e, ⟨mid ++ [.ok ⟨.rightParen, lr⟩, .ok ⟨.eof, le2⟩], lc⟩)) := by
  intro fuel
  induction fuel with
  | zero =>
    refine ⟨?_, ?_, ?_, ?_⟩
    · intro p core mid loc loc2 e lc h; simp [parseExpr] at h
    · intro p e0 core mid loc e lc h; simp [parseExprLoop] at h
    · intro core mid loc loc2 e lc h; simp [parsePrefixExpr] at h
    · intro left p core mid loc e lc h; simp [parseInfixExpr] at h
  | succ fuel ih =>
    obtain ⟨ihE, ihL, ihP, ihI⟩ := ih
    refine ⟨?_, ?_, ?_, ?_⟩
    · -- parseExpr
      intro p core mid loc loc2 e lc h
      simp only [parseExpr] at h ⊢
      rcases hpre : parsePrefixExpr fuel
          ⟨core ++ [.ok ⟨.eof, le⟩], loc⟩ with err | ⟨e0, s2⟩ <;>
        rw [hpre] at h
      · simp [exceptBind_error] at h
      · rw [exceptBind_ok] at h
        have hsfx : [Except.ok (⟨Token.eof, le⟩ : TokenWithLocation)] <:+
            s2.tokens := by
          have h1 := ((parseExprFamily_suffix fuel).2.1) _ _ _ _ _ h
          exact (List.suffix_append mid _).trans h1
        obtain ⟨mid1, hmid1⟩ := hsfx
        rcases s2 with ⟨ts2, lcs2⟩
        simp only at hmid1
        subst hmid1
        have hpre2 := ihP _ _ _ loc2 _ _ hpre
        rw [hpre2, exceptBind_ok]
        exact ihL _ _ _ _ _ _ _ h
    · -- parseExprLoop
      intro p e0 core mid loc e lc h
      have hT : (core ++ [Except.ok (⟨Token.eof, le⟩ :
            TokenWithLocation)]).dropWhile isWhitespaceItem
          = core.dropWhile isWhitespaceItem ++
            [Except.ok (⟨Token.eof, le⟩ : TokenWithLocation)] :=
        dropWhile_append_cons _ _ _ _ rfl
      have hT' : (core ++ [Except.ok (⟨Token.rightParen, lr⟩ :
            TokenWithLocation),
            Except.ok (⟨Token.eof, le2⟩ : TokenWithLocation)]).dropWhile
            isWhitespaceItem
          = core.dropWhile isWhitespaceItem ++
            [Except.ok (⟨Token.rightParen, lr⟩ : TokenWithLocation),
             Except.ok (⟨Token.eof, le2⟩ : TokenWithLocation)] :=
        dropWhile_append_cons _ _ _ _ rfl
      simp only [parseExprLoop] at h ⊢
      rcases hd : core.dropWhile isWhitespaceItem with _ | ⟨r, rest⟩
      · rw [hd, List.nil_append] at hT hT'
        rw [gnp_eq_cons_ok _ loc ⟨Token.eof, le⟩ [] hT] at h
        rw [gnp_eq_cons_ok _ loc ⟨Token.rightParen, lr⟩
          [Except.ok (⟨Token.eof, le2⟩ : TokenWithLocation)] hT']
        dsimp only [precedenceTableSpec] at h ⊢
        rw [if_neg (Nat.not_lt_zero p)] at h
        rw [if_neg (Nat.not_lt_zero p)]
        simp only [Except.ok.injEq, Prod.mk.injEq, ParserState.mk.injEq]
          at h
        obtain ⟨he, hm, hl⟩ := h
        have hmid' : mid ++ [Except.ok (⟨Token.eof, le⟩ :
            TokenWithLocation)] = [] ++ [Except.ok (⟨Token.eof, le⟩ :
            TokenWithLocation)] := by simpa using hm.symm
        have hmid : mid = [] := List.append_cancel_right hmid'
        subst hmid he hl
        simp
      · cases r with
        | error te =>
          rw [hd] at hT hT'
          rw [List.cons_append] at hT hT'
          rw [gnp_eq_cons_error _ loc te _ hT] at h
          rw [gnp_eq_cons_error _ loc te _ hT']
          rw [if_neg (Nat.not_lt_zero p)] at h
          rw [if_neg (Nat.not_lt_zero p)]
          simp only [Except.ok.injEq, Prod.mk.injEq, ParserState.mk.injEq]
            at h
          obtain ⟨he, hm, hl⟩ := h
          have hmid' : mid ++ [Except.ok (⟨Token.eof, le⟩ :
              TokenWithLocation)] = (Except.error te :: rest) ++
              [Except.ok (⟨Token.eof, le⟩ : TokenWithLocation)] := by
            simpa using hm.symm
          have hmid : mid = Except.error te :: rest :=
            List.append_cancel_right hmid'
          subst hmid he hl
          simp
        | ok twl =>
          rw [hd] at hT hT'
          rw [List.cons_append] at hT hT'
          rw [gnp_eq_cons_ok _ loc twl _ hT] at h
          rw [gnp_eq_cons_ok _ loc twl _ hT']
          simp only [prodFst_mk, prodSnd_mk] at h ⊢
          by_cases hnp : p < precedenceTableSpec twl.token
          · rw [if_pos hnp] at h
            rw [if_pos hnp]
            rcases hinf : parseInfixExpr fuel e0
                (precedenceTableSpec twl.token)
                ⟨Except.ok twl :: (rest ++
                  [Except.ok (⟨Token.eof, le⟩ : TokenWithLocation)]),
                  loc⟩ with err | ⟨e1, s3⟩ <;> rw [hinf] at h
            · simp [exceptBind_error] at h
            · rw [exceptBind_ok] at h
              have hsfx : [Except.ok (⟨Token.eof, le⟩ :
                  TokenWithLocation)] <:+ s3.tokens := by
                have h1 := ((parseExprFamily_suffix fuel).2.1) _ _ _ _ _ h
                exact (List.suffix_append mid _).trans h1
              obtain ⟨mid3, hmid3⟩ := hsfx
              rcases s3 with ⟨ts3, lcs3⟩
              simp only at hmid3
              subst hmid3
              have hinf2 := ihI e0 (precedenceTableSpec twl.token)
                (Except.ok twl :: rest) mid3 loc e1 lcs3
                (by simpa using hinf)
              have hinf2' : parseInfixExpr fuel e0
                  (precedenceTableSpec twl.token)
                  ⟨Except.ok twl :: (rest ++
                    [Except.ok (⟨Token.rightParen, lr⟩ :
                      TokenWithLocation),
                     Except.ok (⟨Token.eof, le2⟩ : TokenWithLocation)]),
                    loc⟩ =
                  .ok (e1, ⟨mid3 ++
                    [Except.ok (⟨Token.rightParen, lr⟩ :
                      TokenWithLocation),
                     Except.ok (⟨Token.eof, le2⟩ : TokenWithLocation)],
                    lcs3⟩) := hinf2
              rw [hinf2', exceptBind_ok]
              exact ihL _ _ _ _ _ _ _ h
          · rw [if_neg hnp] at h
            rw [if_neg hnp]
            simp only [Except.ok.injEq, Prod.mk.injEq,
              ParserState.mk.injEq] at h
            obtain ⟨he, hm, hl⟩ := h
            have hmid' : mid ++ [Except.ok (⟨Token.eof, le⟩ :
                TokenWithLocation)] = (Except.ok twl :: rest) ++
                [Except.ok (⟨Token.eof, le⟩ : TokenWithLocation)] := by
              simpa using hm.symm
            have hmid : mid = Except.ok twl :: rest :=
              List.append_cancel_right hmid'
            subst hmid he hl
            simp
    · -- parsePrefixExpr
      intro core mid loc loc2 e lc h
      have hT : (core ++ [Except.ok (⟨Token.eof, le⟩ :
            TokenWithLocation)]).dropWhile isWhitespaceItem
          = core.dropWhile isWhitespaceItem ++
            [Except.ok (⟨Token.eof, le⟩ : TokenWithLocation)] :=
        dropWhile_append_cons _ _ _ _ rfl
      have hT' : (core ++ [Except.ok (⟨Token.rightParen, lr⟩ :
            TokenWithLocation),
            Except.ok (⟨Token.eof, le2⟩ : TokenWithLocation)]).dropWhile
            isWhitespaceItem
          = core.dropWhile isWhitespaceItem ++
            [Except.ok (⟨Token.rightParen, lr⟩ : TokenWithLocation),
             Except.ok (⟨Token.eof, le2⟩ : TokenWithLocation)] :=
        dropWhile_append_cons _ _ _ _ rfl
      simp only [parsePrefixExpr] at h ⊢
      rcases hd : core.dropWhile isWhitespaceItem with _ | ⟨r, rest⟩
      · rw [hd, List.nil_append] at hT
        rw [nextToken_eq_cons_ok _ loc ⟨Token.eof, le⟩ [] hT] at h
        simp at h
      · cases r with
        | error te =>
          rw [hd, List.cons_append] at hT
          rw [nextToken_eq_cons_error _ loc te _ hT] at h
          simp at h
        | ok twl =>
          rw [hd, List.cons_append] at hT hT'
          rw [nextToken_eq_cons_ok _ loc twl _ hT] at h
          rw [nextToken_eq_cons_ok _ loc2 twl _ hT']
          dsimp only at h ⊢
          rcases twl with ⟨t, tl⟩
          cases t
          case leftParen =>
            dsimp only at h ⊢
            rcases hin : parseExpr fuel 0
                ⟨rest ++ [Except.ok (⟨Token.eof, le⟩ :
                  TokenWithLocation)], tl⟩ with err | ⟨e2, s3⟩ <;>
              rw [hin] at h
            · simp [exceptBind_error] at h
            · rw [exceptBind_ok] at h
              dsimp only at h
              rcases hrp : expectToken Token.rightParen s3 with err | ⟨tk, s4⟩
              · rw [hrp] at h
                simp [exceptBind_error] at h
              · rw [hrp] at h
                rw [exceptBind_ok] at h
                dsimp only at h
                simp only [Except.ok.injEq, Prod.mk.injEq] at h
                obtain ⟨he, hs4⟩ := h
                subst hs4 he
                have hsfx : [Except.ok (⟨Token.eof, le⟩ :
                    TokenWithLocation)] <:+ s3.tokens :=
                  (List.suffix_append mid _).trans
                    (expectToken_suffix _ _ _ _ hrp)
                obtain ⟨mid3, hmid3⟩ := hsfx
                rcases s3 with ⟨ts3, lcs3⟩
                simp only at hmid3
                subst hmid3
                have hin2 := ihE 0 rest mid3 tl tl e2 lcs3 hin
                rw [hin2, exceptBind_ok]
                dsimp only
                have hrp2 := expectToken_rparen_frame le lr le2 mid3 lcs3
                  tk mid lc hrp
                rw [hrp2, exceptBind_ok]
          all_goals first
            | (simp only [Except.ok.injEq, Prod.mk.injEq,
                 ParserState.mk.injEq] at h ⊢
               obtain ⟨he, hm, hl⟩ := h
               have hmid : rest = mid := List.append_cancel_right hm
               subst he hl hmid
               exact ⟨rfl, rfl, rfl⟩)
            | simp at h
    · -- parseInfixExpr
      intro left p core mid loc e lc h
      have hT : (core ++ [Except.ok (⟨Token.eof, le⟩ :
            TokenWithLocation)]).dropWhile isWhitespaceItem
          = core.dropWhile isWhitespaceItem ++
            [Except.ok (⟨Token.eof, le⟩ : TokenWithLocation)] :=
        dropWhile_append_cons _ _ _ _ rfl
      have hT' : (core ++ [Except.ok (⟨Token.rightParen, lr⟩ :
            TokenWithLocation),
            Except.ok (⟨Token.eof, le2⟩ : TokenWithLocation)]).dropWhile
            isWhitespaceItem
          = core.dropWhile isWhitespaceItem ++
            [Except.ok (⟨Token.rightParen, lr⟩ : TokenWithLocation),
             Except.ok (⟨Token.eof, le2⟩ : TokenWithLocation)] :=
        dropWhile_append_cons _ _ _ _ rfl
      simp only [parseInfixExpr] at h ⊢
      rcases hd : core.dropWhile isWhitespaceItem with _ | ⟨r, rest⟩
      · rw [hd, List.nil_append] at hT
        rw [nextToken_eq_cons_ok _ loc ⟨Token.eof, le⟩ [] hT] at h
        simp [tokenToOperator] at h
      · cases r with
        | error te =>
          rw [hd, List.cons_append] at hT
          rw [nextToken_eq_cons_error _ loc te _ hT] at h
          simp at h
        | ok twl =>
          rw [hd, List.cons_append] at hT hT'
          rw [nextToken_eq_cons_ok _ loc twl _ hT] at h
          rw [nextToken_eq_cons_ok _ loc twl _ hT']
          dsimp only at h ⊢
          rcases hop : tokenToOperator twl.token with _ | op
          · rw [hop] at h
            simp at h
          · rw [hop] at h
            dsimp only at h ⊢
            rcases hin : parseExpr fuel p
                ⟨rest ++ [Except.ok (⟨Token.eof, le⟩ :
                  TokenWithLocation)], twl.location⟩ with
              err | ⟨e2, s3⟩ <;> rw [hin] at h
            · simp [exceptBind_error] at h
            · rw [exceptBind_ok] at h
              dsimp only at h
              simp only [Except.ok.injEq, Prod.mk.injEq] at h
              obtain ⟨he, hs⟩ := h
              subst hs he
              have hin2 := ihE p rest mid twl.location twl.location e2 lc
                hin
              rw [hin2, exceptBind_ok]


/-- Counterexample to C4 as stated: `parse_expression` parses `a b`
successfully (yielding just `a`, with `b` left unconsumed), yet parsing
`(a b)` fails at the closing-parenthesis check — so success on `E` alone
does not make `(E)` parse to the identical tree. -/
theorem claim_C4_parenthesization_cex :
    (runParseExpression "a b").map Prod.fst = .ok (.identifier "a") ∧
    runParseExpression "(a b)" =
      .error ⟨"expected token ). Got b instead", 3⟩ :=
  ⟨by decide, by decide⟩

/-- C4 (amended): grouping parentheses leave no trace in the AST for
every fully consumed expression. Whenever `parse_expression` parses a
token stream down to the end-of-input token, parsing the same stream
wrapped in parentheses succeeds and yields the identical tree — no AST
node represents the parenthesis. (The counterexample above shows the
full-consumption hypothesis is necessary.) -/
theorem claim_C4_parenthesization_amended
    (core : List (Except TokenizerError TokenWithLocation))
    (fuel : Nat) (loc loc2 l0 le lr le2 lc : Location) (e : Expression)
    (h : parseExpr fuel 0 ⟨core ++ [.ok ⟨.eof, le⟩], loc⟩ =
      .ok (e, ⟨[.ok ⟨.eof, le⟩], lc⟩)) :
    parseExpr (fuel + 2) 0
        ⟨.ok ⟨.leftParen, l0⟩ ::
          (core ++ [.ok ⟨.rightParen, lr⟩, .ok ⟨.eof, le2⟩]), loc2⟩ =
      .ok (e, ⟨[.ok ⟨.eof, le2⟩], lr⟩) := by
  have h' := (parseExprFamily_frame le lr le2 fuel).1 0 core [] loc l0 e lc
    (by simpa using h)
  simp only [List.nil_append] at h'
  simp only [parseExpr, parsePrefixExpr]
  have hd : (Except.ok (⟨Token.leftParen, l0⟩ : TokenWithLocation) ::
      (core ++ [Except.ok (⟨Token.rightParen, lr⟩ : TokenWithLocation),
        Except.ok (⟨Token.eof, le2⟩ : TokenWithLocation)])).dropWhile
      isWhitespaceItem =
    Except.ok (⟨Token.leftParen, l0⟩ : TokenWithLocation) ::
      (core ++ [Except.ok (⟨Token.rightParen, lr⟩ : TokenWithLocation),
        Except.ok (⟨Token.eof, le2⟩ : TokenWithLocation)]) := rfl
  rw [nextToken_eq_cons_ok _ loc2 ⟨Token.leftParen, l0⟩ _ hd]
  dsimp only
  rw [h', exceptBind_ok]
  rfl

/-- Witness for the amended C4 at the one-token expression `a`. -/
theorem claim_C4_parenthesization_amended_witness :
    parseExpr (8 + 2) 0
        ⟨.ok ⟨.leftParen, 0⟩ ::
          ([.ok ⟨.identifier "a", 1⟩] ++
            [.ok ⟨.rightParen, 2⟩, .ok ⟨.eof, 3⟩]), 0⟩ =
      .ok (.identifier "a", ⟨[.ok ⟨.eof, 3⟩], 2⟩) :=
  claim_C4_parenthesization_amended [.ok ⟨.identifier "a", 1⟩] 8 0 0 0 2 2 3 1
    (.identifier "a") (by decide)


end MkDb
